import Mathlib

/-!
Shallow embedding of the vectaraft vector database core
(src/types.rs, src/index/flat.rs, src/catalog/mod.rs, src/storage/wal.rs,
src/server/state.rs, src/server/grpc.rs), with the theorems checking the
specification claims against it.

Modelling conventions:
* `f32` scalars are abstracted by the `FOps` interface; value-level claims are
  settled at the exact-rational instance `ratOps`, while `ef32Ops` additionally
  models the IEEE special values NaN and ±∞ (finite arithmetic is exact — no
  rounding or overflow is modelled; no proved claim depends on rounding).
* Rust panics (assertions, out-of-bounds slicing) are modelled as `none`.
* The WAL file is modelled at two levels: a record level (serialization is
  treated as the identity, sound because serde round-trips records) for the
  replay round-trip claim, and a line level parameterised by an abstract
  line decoder for the corruption claims.
-/

set_option maxHeartbeats 1000000

namespace Vectaraft

/-- Distance metric enumeration (src/types.rs). -/
inductive Metric
  | L2
  | Cosine
  | IP
deriving DecidableEq, Repr

/-- `char::to_ascii_lowercase`: only `A`–`Z` is mapped. -/
def asciiLowerChar (c : Char) : Char :=
  if 'A' ≤ c ∧ c ≤ 'Z' then Char.ofNat (c.toNat + 32) else c

/-- `str::to_ascii_lowercase` (stdlib, modelled characterwise). -/
def asciiLower (s : String) : String :=
  ⟨s.data.map asciiLowerChar⟩

/-- `line.trim().is_empty()` (wal.rs:54): the line consists entirely of
whitespace. -/
def isBlank (s : String) : Bool :=
  s.data.all Char.isWhitespace

/-- `Metric::from_str` (src/types.rs): ASCII-case-insensitive, `"cosine"` and
`"ip"`/`"inner_product"` recognised, anything else falls back to `L2`. -/
def Metric.fromStr (s : String) : Metric :=
  let t := asciiLower s
  if t = "cosine" then .Cosine
  else if t = "ip" ∨ t = "inner_product" then .IP
  else .L2

/-- Scalar arithmetic interface standing for `f32`. `pcmp` models
`f32::partial_cmp` (returning `none` exactly on incomparable, i.e. NaN,
operands in the `ef32Ops` instance). -/
structure FOps (α : Type) where
  add : α → α → α
  sub : α → α → α
  mul : α → α → α
  neg : α → α
  zero : α
  sqrtF : α → α
  divF : α → α → α
  isZero : α → Bool
  pcmp : α → α → Option Ordering

variable {α : Type}

/-- `FlatIndex::l2` (flat.rs:28-36): negated squared Euclidean distance.
The source loops over `0..q.len()` reading `q[i]` and `v[i]`; every call site
passes two slices of length `dim`, which the zip reproduces exactly. -/
def l2 (ops : FOps α) (q v : List α) : α :=
  ops.neg ((List.zip q v).foldl
    (fun s p => ops.add s (ops.mul (ops.sub p.1 p.2) (ops.sub p.1 p.2)))
    ops.zero)

/-- `FlatIndex::dot` (flat.rs:38-42). -/
def dot (ops : FOps α) (q v : List α) : α :=
  (List.zip q v).foldl (fun s p => ops.add s (ops.mul p.1 p.2)) ops.zero

/-- The norm `(xs.iter().map(|x| x * x).sum::<f32>()).sqrt()` (flat.rs:46-47). -/
def norm2 (ops : FOps α) (xs : List α) : α :=
  ops.sqrtF (xs.foldl (fun s x => ops.add s (ops.mul x x)) ops.zero)

/-- `FlatIndex::cosine` (flat.rs:44-49): zero whenever either norm is zero. -/
def cosine (ops : FOps α) (q v : List α) : α :=
  let d := dot ops q v
  let nq := norm2 ops q
  let nv := norm2 ops v
  if ops.isZero nq || ops.isZero nv then ops.zero else ops.divF d (ops.mul nq nv)

/-- The per-row score under a metric (the `match metric` in flat.rs:65-69;
`Collection::search` inlines the same three formulas in catalog/mod.rs:69-85). -/
def scoreWith (ops : FOps α) (m : Metric) (q v : List α) : α :=
  match m with
  | .L2 => l2 ops q v
  | .IP => dot ops q v
  | .Cosine => cosine ops q v

/-- Columnar store for one collection (flat.rs:4-12). -/
structure FlatIndex (α : Type) where
  dim : ℕ
  vectors : List α
  ids : List String
  payloads : List String
  metric : Metric
deriving DecidableEq, Repr

/-- `FlatIndex::len` (flat.rs:19): the number of ids. -/
def FlatIndex.len (idx : FlatIndex α) : ℕ := idx.ids.length

/-- `FlatIndex::new` (flat.rs:15-17). -/
def FlatIndex.new (dim : ℕ) (m : Metric) : FlatIndex α :=
  ⟨dim, [], [], [], m⟩

/-- `FlatIndex::add_batch` (flat.rs:21-26). The assertion that every vector has
length `dim` is a Rust panic, modelled as `none`; nothing checks that the three
inputs have equal length. On success each vector's elements are appended to the
backing column in order, and ids and payloads are appended wholesale. -/
def FlatIndex.addBatch (idx : FlatIndex α) (ids : List String)
    (vecs : List (List α)) (payloads : List String) : Option (FlatIndex α) :=
  if vecs.all (fun v => v.length = idx.dim) then
    some { idx with
      vectors := idx.vectors ++ vecs.flatten
      ids := idx.ids ++ ids
      payloads := idx.payloads ++ payloads }
  else none

/-- The slice `&vectors[off..off + dim]` with the out-of-bounds panic as `none`. -/
def rowSlice (vectors : List α) (off dim : ℕ) : Option (List α) :=
  if off + dim ≤ vectors.length then some ((vectors.drop off).take dim) else none

/-- The comparator closure
`|a, b| b.1.partial_cmp(&a.1).unwrap_or(Ordering::Equal)` used by
`FlatIndex::search_topk` (flat.rs:75,77) and, identically, by
`Collection::search` (catalog/mod.rs:95,97): incomparable scores (NaN) are
mapped to `Equal`. -/
def cmpPair (ops : FOps α) (a b : ℕ × α) : Ordering :=
  (ops.pcmp b.2 a.2).getD .eq

/-- Stable insertion of `x` in front of the first element `y` with
`cmp x y ≠ .gt`. -/
def insCmp (cmp : β → β → Ordering) (x : β) : List β → List β
  | [] => [x]
  | y :: ys => if cmp x y = .gt then y :: insCmp cmp x ys else x :: y :: ys

/-- The pipeline `select_nth_unstable_by(k-1)` / `truncate(k)` / stable
`sort_by` with one comparator, modelled as a stable full sort (truncation is
applied by the caller). Rust leaves the choice among comparator-equal elements
at the `k` boundary unspecified; the stable sort is the deterministic
refinement in which such ties keep scan order, i.e. ascending row index.
Caveat: when the comparator is not a total order — NaN scores mixed with
distinct finite scores, where `unwrap_or(Equal)` equates NaN with unequal
values — Rust's sorts are additionally documented as allowed to panic; this
infallible model is therefore relied on only where the comparator is
consistent (exact-rational scores) or where a concrete two-element trace was
checked against the source. -/
def sortByCmp (cmp : β → β → Ordering) : List β → List β
  | [] => []
  | x :: xs => insCmp cmp x (sortByCmp cmp xs)

/-- `FlatIndex::search_topk` (flat.rs:51-80). The `assert_eq!` on the query
length and the row-slice indexing are modelled as `none` (panic). -/
def FlatIndex.searchTopk (ops : FOps α) (idx : FlatIndex α) (query : List α)
    (topK : ℕ) (ov : Option Metric) : Option (List (ℕ × α)) :=
  if query.length ≠ idx.dim then none
  else if idx.len = 0 ∨ topK = 0 then some []
  else do
    let scored ← (List.range idx.len).mapM (fun i => do
      let v ← rowSlice idx.vectors (i * idx.dim) idx.dim
      pure (i, scoreWith ops (ov.getD idx.metric) query v))
    pure ((sortByCmp (cmpPair ops) scored).take (min topK scored.length))

/-! ### Scalar instances -/

/-- Executable square-root approximation on ℚ (an integer square root of the
scaled numerator). Stands for `f32::sqrt`; no proved claim depends on its
value, only on its totality. -/
def ratSqrt (q : ℚ) : ℚ :=
  (Nat.sqrt (q.num.toNat * q.den) : ℚ) / (q.den : ℚ)

/-- Exact-rational scalar instance: `f32` arithmetic without NaN, infinities,
rounding or overflow. `partial_cmp` is total here. -/
def ratOps : FOps ℚ where
  add := (· + ·)
  sub := (· - ·)
  mul := (· * ·)
  neg := (- ·)
  zero := 0
  sqrtF := ratSqrt
  divF := (· / ·)
  isZero := fun q => decide (q = 0)
  pcmp := fun x y => some (if x < y then .lt else if x = y then .eq else .gt)

/-- `f32` model with the IEEE special values: NaN, +∞, −∞ and exact finite
values. -/
inductive EF32
  | nan
  | inf
  | ninf
  | fin (q : ℚ)
deriving DecidableEq, Repr

namespace EF32

def add : EF32 → EF32 → EF32
  | .nan, _ => .nan
  | _, .nan => .nan
  | .inf, .ninf => .nan
  | .ninf, .inf => .nan
  | .inf, _ => .inf
  | _, .inf => .inf
  | .ninf, _ => .ninf
  | _, .ninf => .ninf
  | .fin q, .fin r => .fin (q + r)

def neg : EF32 → EF32
  | .nan => .nan
  | .inf => .ninf
  | .ninf => .inf
  | .fin q => .fin (-q)

def sub (a b : EF32) : EF32 := add a (neg b)

def mul : EF32 → EF32 → EF32
  | .nan, _ => .nan
  | _, .nan => .nan
  | .inf, .inf => .inf
  | .inf, .ninf => .ninf
  | .ninf, .inf => .ninf
  | .ninf, .ninf => .inf
  | .inf, .fin q => if q = 0 then .nan else if 0 < q then .inf else .ninf
  | .fin q, .inf => if q = 0 then .nan else if 0 < q then .inf else .ninf
  | .ninf, .fin q => if q = 0 then .nan else if 0 < q then .ninf else .inf
  | .fin q, .ninf => if q = 0 then .nan else if 0 < q then .ninf else .inf
  | .fin q, .fin r => .fin (q * r)

def divF : EF32 → EF32 → EF32
  | .nan, _ => .nan
  | _, .nan => .nan
  | .inf, .inf => .nan
  | .inf, .ninf => .nan
  | .ninf, .inf => .nan
  | .ninf, .ninf => .nan
  | .inf, .fin q => if 0 ≤ q then .inf else .ninf
  | .ninf, .fin q => if 0 ≤ q then .ninf else .inf
  | .fin _, .inf => .fin 0
  | .fin _, .ninf => .fin 0
  | .fin q, .fin r =>
      if r = 0 then (if q = 0 then .nan else if 0 < q then .inf else .ninf)
      else .fin (q / r)

def sqrtF : EF32 → EF32
  | .nan => .nan
  | .inf => .inf
  | .ninf => .nan
  | .fin q => if q < 0 then .nan else .fin (ratSqrt q)

def isZero : EF32 → Bool
  | .fin q => decide (q = 0)
  | _ => false

/-- `f32::partial_cmp`: `none` exactly when either operand is NaN. -/
def pcmp : EF32 → EF32 → Option Ordering
  | .nan, _ => none
  | _, .nan => none
  | .inf, .inf => some .eq
  | .inf, _ => some .gt
  | _, .inf => some .lt
  | .ninf, .ninf => some .eq
  | .ninf, _ => some .lt
  | _, .ninf => some .gt
  | .fin q, .fin r => some (if q < r then .lt else if q = r then .eq else .gt)

end EF32

/-- IEEE special-value scalar instance. -/
def ef32Ops : FOps EF32 where
  add := EF32.add
  sub := EF32.sub
  mul := EF32.mul
  neg := EF32.neg
  zero := .fin 0
  sqrtF := EF32.sqrtF
  divF := EF32.divF
  isZero := EF32.isZero
  pcmp := EF32.pcmp

/-! ### JSON payload filtering (catalog/mod.rs:208-221) -/

/-- A JSON value as produced by `serde_json::from_str` (external crate). A
number carries its canonical decimal string, because the source compares
`Number::to_string()`; an object is an association list with first-match
lookup (serde's map holds unique keys). -/
inductive Json
  | null
  | bool (b : Bool)
  | num (s : String)
  | str (s : String)
  | arr (xs : List Json)
  | obj (fields : List (String × Json))

/-- `map.get(key)` on a parsed JSON object. -/
def jsonLookup (fields : List (String × Json)) (key : String) : Option Json :=
  (fields.find? (fun kv => kv.1 == key)).map (·.2)

/-- The per-value match of `payload_matches_filters` (catalog/mod.rs:214-219):
strings by literal equality, numbers by their canonical string form, booleans
by `"true"`/`"false"`; null, arrays and nested objects never match. -/
def valMatches : Json → String → Bool
  | .str s, expected => s == expected
  | .num n, expected => n == expected
  | .bool b, expected => (if b then "true" else "false") == expected
  | _, _ => false

/-- `payload_matches_filters` (catalog/mod.rs:208-221), parameterised by the
JSON parser (`serde_json::from_str`, external to src/). -/
def payloadMatchesFilters (parse : String → Option Json) (payload : String)
    (filters : List (String × String)) : Bool :=
  if filters.isEmpty then true
  else
    match parse payload with
    | some (.obj fields) =>
        filters.all (fun kv =>
          match jsonLookup fields kv.1 with
          | some v => valMatches v kv.2
          | none => false)
    | _ => false

/-! ### Collection (catalog/mod.rs) -/

/-- `Collection` (catalog/mod.rs:10-16). -/
structure Collection (α : Type) where
  name : String
  dim : ℕ
  metric : Metric
  index : FlatIndex α
deriving DecidableEq, Repr

/-- `Collection::new` (catalog/mod.rs:18-26): the index inherits `dim` and
`metric`. -/
def Collection.new (name : String) (dim : ℕ) (m : Metric) : Collection α :=
  ⟨name, dim, m, FlatIndex.new dim m⟩

/-- `Collection::validate_dim` (catalog/mod.rs:28-30). -/
def Collection.validateDim (coll : Collection α) (vector : List α) : Bool :=
  vector.length == coll.dim

/-- `Collection::upsert_batch` (catalog/mod.rs:32-44); the `add_batch`
assertion (a panic, unreachable through `upsert_points` because dimensions
were validated first) surfaces as `none`. -/
def Collection.upsertBatch (coll : Collection α) (ids : List String)
    (vectors : List (List α)) (payloads : List String) :
    Option (Collection α × ℕ) :=
  if vectors.length = 0 then some (coll, 0)
  else (coll.index.addBatch ids vectors payloads).map
    (fun ix => ({ coll with index := ix }, vectors.length))

/-- One candidate row of `Collection::search` (catalog/mod.rs:59-87): the
outer `none` is a panic (vector-slice out of bounds); the inner `none` is a
row skipped by `filter_map` (payload missing via `?`, or a failed filter
match). With filters the payload is checked first, so a skipped row is never
sliced. -/
def collRow (ops : FOps α) (parse : String → Option Json) (coll : Collection α)
    (query : List α) (metric : Metric) (filters : List (String × String))
    (idx : ℕ) : Option (Option (ℕ × α)) :=
  if filters.isEmpty then
    (rowSlice coll.index.vectors (idx * coll.index.dim) coll.index.dim).map
      (fun v => some (idx, scoreWith ops metric query v))
  else
    match coll.index.payloads.get? idx with
    | none => some none
    | some p =>
        if payloadMatchesFilters parse p filters then
          (rowSlice coll.index.vectors (idx * coll.index.dim) coll.index.dim).map
            (fun v => some (idx, scoreWith ops metric query v))
        else some none

/-- The `scored` candidate vector of `Collection::search`
(catalog/mod.rs:57-88). -/
def collCandidates (ops : FOps α) (parse : String → Option Json)
    (coll : Collection α) (query : List α) (metric : Metric)
    (filters : List (String × String)) : Option (List (ℕ × α)) :=
  ((List.range coll.index.len).mapM
    (collRow ops parse coll query metric filters)).map List.reduceOption

/-- `Collection::search` (catalog/mod.rs:46-107). The top-k phase is the same
`select_nth_unstable_by`/`truncate`/`sort_by` pipeline as in
`FlatIndex::search_topk`, modelled by `sortByCmp`/`take`; missing ids or
payloads at output fall back to `""` (`unwrap_or_default`). -/
def Collection.search (ops : FOps α) (parse : String → Option Json)
    (coll : Collection α) (query : List α) (topK : ℕ) (ov : Option Metric)
    (filters : List (String × String)) :
    Option (List (String × α × String)) := do
  let scored ← collCandidates ops parse coll query (ov.getD coll.metric) filters
  if scored.isEmpty ∨ topK = 0 then pure []
  else
    let kept := (sortByCmp (cmpPair ops) scored).take (min topK scored.length)
    pure (kept.map (fun p =>
      ((coll.index.ids.get? p.1).getD "", p.2,
       (coll.index.payloads.get? p.1).getD "")))

/-! ### Catalog (catalog/mod.rs) -/

/-- The catalog's `HashMap<String, Collection>` (catalog/mod.rs:116-119)
modelled as an association list with unique keys; no proved claim depends on
iteration order. -/
abbrev CatalogT (α : Type) := List (String × Collection α)

/-- `HashMap::get`/`contains_key`: first (unique) match by key. -/
def catalogGet : CatalogT α → String → Option (Collection α)
  | [], _ => none
  | kv :: rest, name =>
      if kv.1 == name then some kv.2 else catalogGet rest name

/-- `Catalog::create_collection` (catalog/mod.rs:122-129): insert if absent,
report whether an insert happened; an existing entry is left untouched. -/
def createCollection (c : CatalogT α) (name : String) (dim : ℕ) (m : Metric) :
    Bool × CatalogT α :=
  if (catalogGet c name).isSome then (false, c)
  else (true, c ++ [(name, Collection.new name dim m)])

/-- `HashMap::get_mut` followed by in-place mutation (the closure of
`with_mut`, catalog/mod.rs:189-196): the single entry under the key is
replaced (the association list's first match, mirroring the hash map's unique
key). -/
def catalogSet : CatalogT α → String → Collection α → CatalogT α
  | [], _, _ => []
  | kv :: rest, name, coll =>
      if kv.1 == name then (kv.1, coll) :: rest
      else kv :: catalogSet rest name coll

/-- Modelled from the spec: `Catalog::len` is called from grpc.rs:43 and
main.rs:27 but its body is absent from src/; §4.4 defines it as the number of
collections. -/
def catalogLen (c : CatalogT α) : ℕ := c.length

/-- Modelled from the spec: `Catalog::total_points` is called from grpc.rs:44
and main.rs:28 but its body is absent from src/; §4.4 defines it as the sum of
`FlatIndex::len` across all collections. -/
def totalPoints (c : CatalogT α) : ℕ :=
  (c.map (fun kv => kv.2.index.len)).sum

/-- `PointWrite` (catalog/mod.rs:110-114). -/
structure PointWrite (α : Type) where
  id : String
  vector : List α
  payload_json : String
deriving DecidableEq, Repr

/-- `CollectionHandle::upsert_points` (catalog/mod.rs:147-163) with the
`with_ref`/`with_mut` guards collapsed (single-threaded: both guards see the
same map). `none` is the source's `None` (dimension validation failed, or the
collection vanished); the unreachable `add_batch` panic is collapsed to `none`
as well. -/
def upsertPoints (c : CatalogT α) (name : String)
    (points : List (PointWrite α)) : Option (CatalogT α × ℕ) :=
  if points.isEmpty then some (c, 0)
  else
    let dimsOk := ((catalogGet c name).map
      (fun coll => points.all (fun p => coll.validateDim p.vector))).getD false
    if !dimsOk then none
    else
      match catalogGet c name with
      | none => none
      | some coll =>
          (coll.upsertBatch (points.map (·.id)) (points.map (·.vector))
            (points.map (·.payload_json))).map
            (fun pr => (catalogSet c name pr.1, pr.2))

/-- `CollectionHandle::search` (catalog/mod.rs:165-187): empty query returns
empty; `none` when the collection is absent or the dimension check fails. -/
def handleSearch (ops : FOps α) (parse : String → Option Json)
    (c : CatalogT α) (name : String) (query : List α) (topK : ℕ)
    (ov : Option Metric) (filters : List (String × String)) :
    Option (List (String × α × String)) :=
  if query.isEmpty then some []
  else
    let dimOk := ((catalogGet c name).map
      (fun coll => coll.validateDim query)).getD false
    if !dimOk then none
    else
      match catalogGet c name with
      | none => none
      | some coll => coll.search ops parse query topK ov filters

/-! ### WAL (storage/wal.rs, server/state.rs) -/

/-- `WalRecord` (wal.rs:9-25); the source variants are `Upsert` and
`CreateCollection`. `ts_ms` is carried but ignored by replay. -/
inductive WalRecord
  | upsertRec (collection : String) (id : String) (vector : List ℚ)
      (payload_json : String) (ts : Int)
  | createRec (name : String) (dim : ℕ) (metric : String) (ts : Int)
deriving DecidableEq, Repr

/-- One step of `DbState::replay_wal` (state.rs:46-61): `CreateCollection`
re-parses the metric string and discards the returned flag; `Upsert` applies a
single-point upsert, dropping the record when the collection is absent or the
upsert fails (`let _ =`, no mutation happens in that case). -/
def applyRecord (c : CatalogT ℚ) : WalRecord → CatalogT ℚ
  | .createRec name dim metric _ =>
      (createCollection c name dim (Metric.fromStr metric)).2
  | .upsertRec coll id vector payload _ =>
      match catalogGet c coll with
      | none => c
      | some _ =>
          match upsertPoints c coll [⟨id, vector, payload⟩] with
          | some pr => pr.1
          | none => c

/-- The record-application loop of `DbState::replay_wal` (state.rs:45-62). -/
def replayRecords (recs : List WalRecord) (c : CatalogT ℚ) : CatalogT ℚ :=
  recs.foldl applyRecord c

/-- `Wal::replay` (wal.rs:48-59) at the line level, parameterised by the line
decoder (`serde_json::from_str`, external to src/). Blank lines are skipped
(`trim().is_empty()`); the first malformed line aborts the whole replay with
its index (the `?` on `from_str` — no records are returned in that case). -/
def walReplayLinesAux (parse : String → Option WalRecord) :
    List String → ℕ → Except ℕ (List WalRecord)
  | [], _ => .ok []
  | s :: rest, i =>
      if isBlank s then walReplayLinesAux parse rest (i + 1)
      else
        match parse s with
        | none => .error i
        | some r => (walReplayLinesAux parse rest (i + 1)).map (r :: ·)

/-- `Wal::replay` on a file given as its list of lines. -/
def walReplayLines (parse : String → Option WalRecord) (lines : List String) :
    Except ℕ (List WalRecord) :=
  walReplayLinesAux parse lines 0

/-- `DbState::replay_wal` (state.rs:42-68) on a WAL file given as lines: on an
`Err` from `Wal::replay` nothing at all is applied (the source logs
"failed to replay WAL; database will start empty" and keeps the fresh
catalog). -/
def dbReplayLines (parse : String → Option WalRecord) (lines : List String)
    (c : CatalogT ℚ) : CatalogT ℚ :=
  match walReplayLines parse lines with
  | .ok recs => replayRecords recs c
  | .error _ => c

/-! ### gRPC service (server/grpc.rs) -/

/-- The tonic `Status` codes the service produces. -/
inductive StatusE
  | invalidArgument
  | notFound
  | alreadyExists
deriving DecidableEq, Repr

/-- A protobuf point of an `UpsertRequest`. -/
structure PbPoint where
  id : String
  vector : List ℚ
  payload_json : String
deriving DecidableEq, Repr

/-- `CreateCollectionRequest`. -/
structure CreateReq where
  name : String
  dims : ℕ
  metric : String
deriving DecidableEq, Repr

/-- `UpsertRequest`. -/
structure UpsertReq where
  collection : String
  points : List PbPoint
deriving DecidableEq, Repr

/-- `VectorDbService::create_collection` (grpc.rs:64-92). Returns the new
catalog, the WAL records appended (in order, appended only after the catalog
insert succeeded), and the gRPC outcome. `now_ms()` is modelled as 0 — replay
ignores timestamps. -/
def grpcCreate (c : CatalogT ℚ) (req : CreateReq) :
    CatalogT ℚ × List WalRecord × Except StatusE Unit :=
  if req.name = "" then (c, [], .error .invalidArgument)
  else if req.dims = 0 then (c, [], .error .invalidArgument)
  else
    let pr := createCollection c req.name req.dims (Metric.fromStr req.metric)
    if !pr.1 then (c, [], .error .alreadyExists)
    else (pr.2, [.createRec req.name req.dims req.metric 0], .ok ())

/-- `VectorDbService::upsert` (grpc.rs:94-151). `mint i` stands for the UUID
v4 minted for the `i`-th point of the request when its id is empty (grpc.rs:
115-119); `now_ms()` is modelled as 0. The prepared batch and the WAL records
are built in the same loop; the records are appended only after
`upsert_points` succeeds, and any validation failure returns before any
mutation or append. -/
def grpcUpsert (mint : ℕ → String) (c : CatalogT ℚ) (req : UpsertReq) :
    CatalogT ℚ × List WalRecord × Except StatusE ℕ :=
  if req.collection = "" then (c, [], .error .invalidArgument)
  else if (catalogGet c req.collection).isNone then (c, [], .error .notFound)
  else if req.points.isEmpty then (c, [], .ok 0)
  else if req.points.any (fun p => p.vector.isEmpty) then
    (c, [], .error .invalidArgument)
  else
    let prepared := req.points.enum.map (fun ip =>
      ({ id := if ip.2.id = "" then mint ip.1 else ip.2.id
         vector := ip.2.vector
         payload_json := ip.2.payload_json } : PointWrite ℚ))
    let walRecs := prepared.map (fun p =>
      WalRecord.upsertRec req.collection p.id p.vector p.payload_json 0)
    match upsertPoints c req.collection prepared with
    | none => (c, [], .error .invalidArgument)
    | some pr => (pr.1, walRecs, .ok pr.2)

/-! ### Mutation sequences (for the WAL round-trip claim) -/

/-- A mutating request: a collection create or an upsert. -/
inductive Mutation
  | create (req : CreateReq)
  | upsert (req : UpsertReq)

/-- Apply one request through the gRPC service, keeping the catalog and the
WAL records it appended. -/
def applyMutation (mint : ℕ → String) (c : CatalogT ℚ) :
    Mutation → CatalogT ℚ × List WalRecord
  | .create req => let r := grpcCreate c req; (r.1, r.2.1)
  | .upsert req => let r := grpcUpsert mint c req; (r.1, r.2.1)

/-- Apply a sequence of requests, concatenating the appended WAL records in
order (WAL append order equals the order of successful mutations). -/
def applyMutations (mint : ℕ → String) (c : CatalogT ℚ) :
    List Mutation → CatalogT ℚ × List WalRecord
  | [] => (c, [])
  | m :: ms =>
      let r := applyMutation mint c m
      let rest := applyMutations mint r.1 ms
      (rest.1, r.2 ++ rest.2)

/-- The top-1 hit of a query against a named collection (`top_k = 1`, no
override, no filters), `none` when the search itself fails. -/
def top1 (parse : String → Option Json) (c : CatalogT ℚ) (name : String)
    (query : List ℚ) : Option (Option (String × ℚ × String)) :=
  (handleSearch ratOps parse c name query 1 none []).map List.head?

/-- The effect of a successful `upsert_points` on its collection: all ids,
payloads and vector elements appended in order (through
`Collection::upsert_batch` and `FlatIndex::add_batch`). -/
def collAppend (coll : Collection α) (points : List (PointWrite α)) :
    Collection α :=
  { coll with index := { coll.index with
      vectors := coll.index.vectors ++ (points.map (·.vector)).flatten
      ids := coll.index.ids ++ points.map (·.id)
      payloads := coll.index.payloads ++ points.map (·.payload_json) } }

/-- A concrete WAL line decoder for witnesses: one known-good line, every
other line malformed. -/
def parseDemo : String → Option WalRecord := fun s =>
  if s = "good" then some (.createRec "demo" 3 "l2" 0) else none

/-- A concrete JSON parser table for witnesses: one known payload parsing to
the object with key `"k"` bound to the number `1`. -/
def parseJsonDemo : String → Option Json := fun s =>
  if s = "objk1" then some (.obj [("k", .num "1")]) else none

/-! ### Helper lemmas: the comparator sort -/

section SortLemmas

variable {β : Type} (cmp : β → β → Ordering)

theorem length_insCmp (x : β) (l : List β) :
    (insCmp cmp x l).length = l.length + 1 := by
  induction l with
  | nil => rfl
  | cons y ys ih =>
      simp only [insCmp]
      split <;> simp [ih]

theorem length_sortByCmp (l : List β) : (sortByCmp cmp l).length = l.length := by
  induction l with
  | nil => rfl
  | cons x xs ih => simp [sortByCmp, length_insCmp, ih]

theorem mem_insCmp (a x : β) (l : List β) :
    a ∈ insCmp cmp x l ↔ a = x ∨ a ∈ l := by
  induction l with
  | nil => simp [insCmp]
  | cons y ys ih =>
      simp only [insCmp]
      split
      · simp only [List.mem_cons, ih]; tauto
      · simp [List.mem_cons]

theorem mem_sortByCmp (a : β) (l : List β) :
    a ∈ sortByCmp cmp l ↔ a ∈ l := by
  induction l with
  | nil => simp [sortByCmp]
  | cons x xs ih => simp [sortByCmp, mem_insCmp, ih]

theorem chain'_insCmp
    (hasym : ∀ a b : β, cmp a b = .gt → ¬cmp b a = .gt) (x : β) (l : List β)
    (h : List.Chain' (fun a b => ¬cmp a b = .gt) l) :
    List.Chain' (fun a b => ¬cmp a b = .gt) (insCmp cmp x l) := by
  induction l with
  | nil => simp [insCmp]
  | cons y ys ih =>
      rw [List.chain'_cons'] at h
      simp only [insCmp]
      split
      · rename_i hxy
        rw [List.chain'_cons']
        refine ⟨?_, ih h.2⟩
        intro z hz
        cases ys with
        | nil =>
            simp [insCmp] at hz
            subst hz; exact hasym _ _ hxy
        | cons w ws =>
            simp only [insCmp] at hz
            revert hz; split
            · intro hz
              simp only [List.head?, Option.mem_def, Option.some.injEq] at hz
              subst hz
              exact h.1 w (by simp)
            · intro hz
              simp only [List.head?, Option.mem_def, Option.some.injEq] at hz
              subst hz; exact hasym _ _ hxy
      · rename_i hxy
        rw [List.chain'_cons']
        exact ⟨fun z hz => by simp at hz; subst hz; exact hxy,
          List.chain'_cons'.mpr h⟩

theorem chain'_sortByCmp
    (hasym : ∀ a b : β, cmp a b = .gt → ¬cmp b a = .gt) (l : List β) :
    List.Chain' (fun a b => ¬cmp a b = .gt) (sortByCmp cmp l) := by
  induction l with
  | nil => simp [sortByCmp]
  | cons x xs ih => exact chain'_insCmp cmp hasym x _ ih

end SortLemmas

/-- `mapM` over `Option` evaluates pointwise when every element succeeds. -/
theorem option_mapM_map {β : Type} {f : ℕ → Option β} {g : ℕ → β}
    (l : List ℕ) (h : ∀ i ∈ l, f i = some (g i)) :
    l.mapM f = some (l.map g) := by
  induction l with
  | nil => rfl
  | cons a as ih =>
      rw [List.mapM_cons, h a (by simp)]
      rw [ih (fun i hi => h i (by simp [hi]))]
      rfl

/-! ### Claim theorems -/

/-- C9: searching with `metric_override = M` returns exactly the same result
sequence as searching with no override on the same stored data whose effective
metric is `M`; the override enters only through `unwrap_or(self.metric)` and
the stored vectors, ids and payloads read are identical on both sides. Holds
for `FlatIndex::search_topk` and for `Collection::search`, under every scalar
semantics. -/
theorem metric_override_equiv {α : Type} (ops : FOps α)
    (parse : String → Option Json) (idx : FlatIndex α) (coll : Collection α)
    (m M : Metric) (q : List α) (k : ℕ)
    (filters : List (String × String)) :
    FlatIndex.searchTopk ops { idx with metric := m } q k (some M)
      = FlatIndex.searchTopk ops { idx with metric := M } q k none
    ∧ Collection.search ops parse { coll with metric := m } q k (some M) filters
      = Collection.search ops parse { coll with metric := M } q k none filters :=
  ⟨rfl, rfl⟩

/-- C2 counterexample: in the comparator actually used by `search_topk` (and
`Collection::search`), a NaN score does not compare less than the finite score
`1.0` — `partial_cmp` returns `None` and `unwrap_or(Ordering::Equal)` turns it
into `Equal` — and on a concrete index the NaN-scored row 0 is retained in
preference to the finite-scored row 1. -/
theorem nan_ordering_counterexample :
    ¬(EF32.pcmp EF32.nan (EF32.fin 1) = some .lt)
    ∧ cmpPair ef32Ops (0, EF32.nan) (1, EF32.fin 1) = .eq
    ∧ FlatIndex.searchTopk ef32Ops
        ⟨1, [EF32.nan, EF32.fin 1], ["a", "b"], ["", ""], Metric.IP⟩
        [EF32.fin 1] 1 none = some [(0, EF32.nan)] := by
  decide

/-- C2 amended: NaN scores compare equal to each other and equal to every
other score (the `unwrap_or(Ordering::Equal)` on `partial_cmp`), so a
NaN-scored row can be retained in preference to a finite-scored one; the
comparator never inspects the row index, and in the modelled stable ordering
rows whose scores compare equal are kept in ascending row-index order. -/
theorem nan_ordering_amended (x : EF32) (i j : ℕ) (q r : ℚ) :
    cmpPair ef32Ops (i, EF32.nan) (j, x) = .eq
    ∧ cmpPair ef32Ops (i, x) (j, EF32.nan) = .eq
    ∧ cmpPair ef32Ops (i, EF32.fin q) (j, EF32.fin r)
        = cmpPair ef32Ops (0, EF32.fin q) (0, EF32.fin r)
    ∧ sortByCmp (cmpPair ef32Ops) [(i, x), (j, x)] = [(i, x), (j, x)] := by
  refine ⟨?_, ?_, rfl, ?_⟩
  · cases x <;> rfl
  · cases x <;> rfl
  · cases x <;>
      simp [sortByCmp, insCmp, cmpPair, ef32Ops, EF32.pcmp]

/-- C6 counterexample: `add_batch` succeeds on inputs whose three sequences
have different lengths (2 ids, 1 vector, 0 payloads) — the claimed
`DimensionMismatch` failure on unequal input lengths does not exist. -/
theorem add_batch_counterexample :
    ((FlatIndex.new 1 Metric.L2 : FlatIndex ℚ).addBatch ["a", "b"]
        [[(1 : ℚ)]] []).isSome = true
    ∧ ["a", "b"].length ≠ [[(1 : ℚ)]].length := by
  decide

/-- C6 amended: `add_batch` fails — by an assertion panic, not a returned
error — iff some vector's length differs from `dim`; the relative lengths of
the three inputs are never checked. Under the per-vector dimension
precondition it appends all ids and payloads wholesale and every vector's
elements to the backing column in order. -/
theorem add_batch_amended (idx : FlatIndex ℚ) (ids : List String)
    (vecs : List (List ℚ)) (payloads : List String) :
    (idx.addBatch ids vecs payloads = none ↔ ∃ v ∈ vecs, v.length ≠ idx.dim)
    ∧ ((∀ v ∈ vecs, v.length = idx.dim) →
        idx.addBatch ids vecs payloads = some
          { idx with
            vectors := idx.vectors ++ vecs.flatten
            ids := idx.ids ++ ids
            payloads := idx.payloads ++ payloads }) := by
  constructor
  · unfold FlatIndex.addBatch
    split
    · rename_i h
      simp only [List.all_eq_true, decide_eq_true_eq] at h
      simp only [reduceCtorEq, false_iff, not_exists]
      intro v hv
      exact hv.2 (h v hv.1)
    · rename_i h
      simp only [List.all_eq_true, decide_eq_true_eq] at h
      push_neg at h
      simpa using h
  · intro h
    unfold FlatIndex.addBatch
    rw [if_pos]
    simp only [List.all_eq_true, decide_eq_true_eq]
    exact h

/-- C7: creating a collection under an already-used name returns `false` and
leaves the catalog — hence the existing collection's dim, metric and stored
points — unchanged; at the gRPC layer the failed call reports AlreadyExists
and appends no WAL CreateCollection record; under an absent name the
collection is inserted and `true` is returned. -/
theorem create_collection_idempotent (c : CatalogT ℚ) (name : String)
    (dim : ℕ) (m : Metric) (req : CreateReq) :
    ((catalogGet c name).isSome = true →
      createCollection c name dim m = (false, c))
    ∧ ((catalogGet c req.name).isSome = true → req.name ≠ "" →
        req.dims ≠ 0 → grpcCreate c req = (c, [], .error .alreadyExists))
    ∧ ((catalogGet c name).isSome = false →
      createCollection c name dim m
        = (true, c ++ [(name, Collection.new name dim m)])) := by
  refine ⟨fun h => ?_, fun h h1 h2 => ?_, fun h => ?_⟩
  · simp [createCollection, h]
  · simp [grpcCreate, h1, h2, createCollection, h]
  · simp [createCollection, h]

/-- Witness for C7: a second create of `"demo"` with different dim and metric
fails, changes nothing and logs nothing; a create under a fresh name inserts. -/
theorem create_collection_idempotent_witness :
    createCollection
        [("demo", (Collection.new "demo" 4 Metric.L2 : Collection ℚ))] "demo"
        8 Metric.IP
      = (false, [("demo", (Collection.new "demo" 4 Metric.L2 : Collection ℚ))])
    ∧ grpcCreate [("demo", (Collection.new "demo" 4 Metric.L2 : Collection ℚ))]
        ⟨"demo", 8, "ip"⟩
      = ([("demo", (Collection.new "demo" 4 Metric.L2 : Collection ℚ))], [],
          .error .alreadyExists)
    ∧ createCollection
        [("demo", (Collection.new "demo" 4 Metric.L2 : Collection ℚ))] "fresh"
        2 Metric.Cosine
      = (true, [("demo", (Collection.new "demo" 4 Metric.L2 : Collection ℚ))]
          ++ [("fresh", Collection.new "fresh" 2 Metric.Cosine)]) :=
  ⟨(create_collection_idempotent _ "demo" 8 Metric.IP
      ⟨"demo", 8, "ip"⟩).1 (by decide),
    (create_collection_idempotent _ "demo" 8 Metric.IP
      ⟨"demo", 8, "ip"⟩).2.1 (by decide) (by decide) (by decide),
    (create_collection_idempotent _ "fresh" 2 Metric.Cosine
      ⟨"demo", 8, "ip"⟩).2.2 (by decide)⟩

/-- `upsert_points` returns `None` — touching nothing — whenever some point
fails dimension validation. -/
theorem upsertPoints_none_of_dim_mismatch (c : CatalogT ℚ) (name : String)
    (points : List (PointWrite ℚ)) (coll : Collection ℚ)
    (hget : catalogGet c name = some coll) (hne : points ≠ [])
    (hallf : points.all (fun p => coll.validateDim p.vector) = false) :
    upsertPoints c name points = none := by
  simp [upsertPoints, List.isEmpty_iff, hne, hget, hallf]

/-- C5: an upsert request containing a point whose vector length differs from
the collection's dim fails with InvalidArgument, leaves the catalog — hence
the collection's `len()` — unchanged (no point of the batch is applied), and
appends no WAL record. -/
theorem upsert_dim_mismatch_rejected (mint : ℕ → String) (c : CatalogT ℚ)
    (req : UpsertReq) (coll : Collection ℚ)
    (hget : catalogGet c req.collection = some coll)
    (hbad : ∃ p ∈ req.points, p.vector.length ≠ coll.dim) :
    grpcUpsert mint c req = (c, [], .error .invalidArgument) := by
  obtain ⟨p0, hp0, hlen⟩ := hbad
  have hne : req.points ≠ [] := fun h => by simp [h] at hp0
  unfold grpcUpsert
  by_cases hname : req.collection = ""
  · rw [if_pos hname]
  · rw [if_neg hname, if_neg (by simp [hget]),
      if_neg (by simp [List.isEmpty_iff, hne])]
    by_cases hemp : req.points.any (fun p => p.vector.isEmpty) = true
    · rw [if_pos hemp]
    · rw [if_neg hemp]
      obtain ⟨i, hi⟩ := List.mem_iff_getElem?.mp hp0
      have hnone : upsertPoints c req.collection
          (req.points.enum.map (fun ip =>
            ({ id := if ip.2.id = "" then mint ip.1 else ip.2.id,
               vector := ip.2.vector,
               payload_json := ip.2.payload_json } : PointWrite ℚ))) = none := by
        apply upsertPoints_none_of_dim_mismatch _ _ _ coll hget
        · exact List.ne_nil_of_mem (List.mem_map_of_mem _
            (List.mk_mem_enum_iff_getElem?.mpr hi))
        · rw [List.all_eq_false]
          refine ⟨_, List.mem_map_of_mem _
            (List.mk_mem_enum_iff_getElem?.mpr hi), ?_⟩
          simp [Collection.validateDim, hlen]
      simp [hnone]

/-- Witness for C5: upserting a 4-dimensional vector into a dim-3 collection
is rejected with InvalidArgument, and neither the catalog nor the WAL gains
anything. -/
theorem upsert_dim_mismatch_rejected_witness :
    catalogGet [("demo", (Collection.new "demo" 3 Metric.L2 : Collection ℚ))]
        "demo"
      = some (Collection.new "demo" 3 Metric.L2)
    ∧ grpcUpsert (fun _ => "u")
        [("demo", (Collection.new "demo" 3 Metric.L2 : Collection ℚ))]
        ⟨"demo", [⟨"p1", [(1 : ℚ), 2, 3, 4], ""⟩]⟩
      = ([("demo", (Collection.new "demo" 3 Metric.L2 : Collection ℚ))], [],
          .error .invalidArgument) :=
  ⟨by decide,
    upsert_dim_mismatch_rejected (fun _ => "u")
      [("demo", (Collection.new "demo" 3 Metric.L2 : Collection ℚ))]
      ⟨"demo", [⟨"p1", [(1 : ℚ), 2, 3, 4], ""⟩]⟩
      (Collection.new "demo" 3 Metric.L2) (by decide) (by decide)⟩

/-- Under the column-length invariant every row slice of the parallel scan is
in bounds, so the scored scan evaluates pointwise. -/
theorem scored_scan_eq {α : Type} (ops : FOps α) (idx : FlatIndex α)
    (q : List α) (mv : Metric)
    (hv : idx.vectors.length = idx.len * idx.dim) :
    (List.range idx.len).mapM (fun i => do
        let v ← rowSlice idx.vectors (i * idx.dim) idx.dim
        pure (i, scoreWith ops mv q v))
      = some ((List.range idx.len).map (fun i =>
          (i, scoreWith ops mv q
            ((idx.vectors.drop (i * idx.dim)).take idx.dim)))) := by
  apply option_mapM_map
  intro i hi
  rw [List.mem_range] at hi
  have hb : i * idx.dim + idx.dim ≤ idx.vectors.length := by
    rw [hv]
    calc i * idx.dim + idx.dim = (i + 1) * idx.dim := by ring
    _ ≤ idx.len * idx.dim := Nat.mul_le_mul_right _ hi
  simp [rowSlice, hb]

/-- The comparator over exact rationals: `Greater` exactly when the first
pair's score is strictly below the second's. -/
theorem cmpPair_rat_gt (a b : ℕ × ℚ) :
    cmpPair ratOps a b = .gt ↔ a.2 < b.2 := by
  simp only [cmpPair, ratOps, Option.getD_some]
  split_ifs with h1 h2
  · exact iff_of_false (fun hc => hc) (not_lt_of_lt h1)
  · exact iff_of_false (fun hc => hc)
      (fun hc => absurd (h2 ▸ hc) (lt_irrefl _))
  · refine iff_of_true rfl ?_
    rcases lt_trichotomy a.2 b.2 with h | h | h
    · exact h
    · exact absurd h.symm h2
    · exact absurd h h1

/-- C1: under the column-length invariant and a query of length `dim`,
`search_topk` returns `min k len` pairs sorted by descending score; every
returned pair scores its row's stored vector under the effective metric, and
with an empty index or `k = 0` the result is empty. (Exact-rational scalar
instance, where every score comparison is decided by `partial_cmp`.) -/
theorem search_topk_spec (idx : FlatIndex ℚ) (q : List ℚ) (k : ℕ)
    (ov : Option Metric)
    (hv : idx.vectors.length = idx.len * idx.dim) (hq : q.length = idx.dim) :
    ∃ res, idx.searchTopk ratOps q k ov = some res
      ∧ res.length = min k idx.len
      ∧ List.Pairwise (fun a b : ℕ × ℚ => b.2 ≤ a.2) res
      ∧ (∀ p ∈ res, p.1 < idx.len
          ∧ p.2 = scoreWith ratOps (ov.getD idx.metric) q
              ((idx.vectors.drop (p.1 * idx.dim)).take idx.dim))
      ∧ ((idx.len = 0 ∨ k = 0) → res = []) := by
  unfold FlatIndex.searchTopk
  rw [if_neg (by simp [hq])]
  by_cases h0 : idx.len = 0 ∨ k = 0
  · rw [if_pos h0]
    refine ⟨[], rfl, ?_, by simp, by simp, fun _ => rfl⟩
    rcases h0 with h | h <;> simp [h]
  · rw [if_neg h0]
    rw [show ((List.range idx.len).mapM (fun i => do
          let v ← rowSlice idx.vectors (i * idx.dim) idx.dim
          pure (i, scoreWith ratOps (ov.getD idx.metric) q v))
            : Option (List (ℕ × ℚ)))
        = _ from scored_scan_eq ratOps idx q (ov.getD idx.metric) hv]
    set L := (List.range idx.len).map (fun i =>
      (i, scoreWith ratOps (ov.getD idx.metric) q
        ((idx.vectors.drop (i * idx.dim)).take idx.dim))) with hL
    have hLlen : L.length = idx.len := by
      rw [hL, List.length_map, List.length_range]
    refine ⟨(sortByCmp (cmpPair ratOps) L).take (min k L.length),
      rfl, ?_, ?_, ?_, fun h => absurd h h0⟩
    · rw [List.length_take, length_sortByCmp, hLlen]
      omega
    · have hasym : ∀ a b : ℕ × ℚ,
          cmpPair ratOps a b = .gt → ¬cmpPair ratOps b a = .gt := by
        intro a b hab hba
        rw [cmpPair_rat_gt] at hab hba
        exact absurd hba (not_lt_of_lt hab)
      have hch := (chain'_sortByCmp (cmpPair ratOps) hasym L).take (min k L.length)
      have hch' : List.Chain' (fun a b : ℕ × ℚ => b.2 ≤ a.2)
          ((sortByCmp (cmpPair ratOps) L).take (min k L.length)) := by
        refine hch.imp ?_
        intro a b hab
        rw [cmpPair_rat_gt] at hab
        exact le_of_not_lt hab
      haveI : IsTrans (ℕ × ℚ) (fun a b : ℕ × ℚ => b.2 ≤ a.2) :=
        ⟨fun a b c hab hbc => le_trans hbc hab⟩
      exact List.chain'_iff_pairwise.mp hch'
    · intro p hp
      have hp1 : p ∈ sortByCmp (cmpPair ratOps) L :=
        (List.take_sublist _ _).subset hp
      rw [mem_sortByCmp] at hp1
      rw [hL] at hp1
      rcases List.mem_map.mp hp1 with ⟨i, hi, hpi⟩
      rw [List.mem_range] at hi
      subst hpi
      exact ⟨hi, rfl⟩

/-- Witness for C1 at a concrete two-row index. -/
theorem search_topk_spec_witness :
    ((⟨2, [(1 : ℚ), 0, 0, 1], ["a", "b"], ["", ""],
        Metric.IP⟩ : FlatIndex ℚ).vectors.length
      = (⟨2, [(1 : ℚ), 0, 0, 1], ["a", "b"], ["", ""],
        Metric.IP⟩ : FlatIndex ℚ).len * 2)
    ∧ ∃ res, (⟨2, [(1 : ℚ), 0, 0, 1], ["a", "b"], ["", ""],
        Metric.IP⟩ : FlatIndex ℚ).searchTopk ratOps [(1 : ℚ), 2] 1 none
          = some res
      ∧ res.length = min 1 2
      ∧ List.Pairwise (fun a b : ℕ × ℚ => b.2 ≤ a.2) res
      ∧ (∀ p ∈ res, p.1 < 2
          ∧ p.2 = scoreWith ratOps Metric.IP [(1 : ℚ), 2]
              ((([(1 : ℚ), 0, 0, 1]).drop (p.1 * 2)).take 2))
      ∧ ((2 = 0 ∨ 1 = 0) → res = []) :=
  ⟨by decide,
    search_topk_spec ⟨2, [(1 : ℚ), 0, 0, 1], ["a", "b"], ["", ""], Metric.IP⟩
      [(1 : ℚ), 2] 1 none (by decide) (by decide)⟩

/-- Witness for the amended C6 statement at a concrete input. -/
theorem add_batch_amended_witness :
    (FlatIndex.new 2 Metric.IP : FlatIndex ℚ).addBatch ["x"] [[(1 : ℚ), 2]]
        ["p"]
      = some { (FlatIndex.new 2 Metric.IP : FlatIndex ℚ) with
          vectors := (FlatIndex.new 2 Metric.IP : FlatIndex ℚ).vectors
            ++ [[(1 : ℚ), 2]].flatten
          ids := (FlatIndex.new 2 Metric.IP : FlatIndex ℚ).ids ++ ["x"]
          payloads := (FlatIndex.new 2 Metric.IP : FlatIndex ℚ).payloads
            ++ ["p"] } :=
  (add_batch_amended (FlatIndex.new 2 Metric.IP) ["x"] [[(1 : ℚ), 2]]
    ["p"]).2 (by decide)

/-- The `Wal::replay` loop aborts at the first malformed non-blank line,
reporting its index and returning no records. -/
theorem walReplayLinesAux_error (parse : String → Option WalRecord) :
    ∀ (lines : List String) (start j : ℕ) (bad : String),
      lines.get? j = some bad → isBlank bad = false → parse bad = none →
      (∀ i < j, ((lines.get? i).all
        (fun s => isBlank s || (parse s).isSome)) = true) →
      walReplayLinesAux parse lines start = .error (start + j) := by
  intro lines
  induction lines with
  | nil => intro start j bad hj; simp at hj
  | cons s rest ih =>
      intro start j bad hj hblank hparse hfirst
      cases j with
      | zero =>
          simp only [List.get?] at hj
          injection hj with hj
          subst hj
          simp [walReplayLinesAux, hblank, hparse]
      | succ j' =>
          have hj' : rest.get? j' = some bad := hj
          have hfirst' : ∀ i < j', ((rest.get? i).all
              (fun t => isBlank t || (parse t).isSome)) = true :=
            fun i hilt => hfirst (i + 1) (by omega)
          have harec : walReplayLinesAux parse rest (start + 1)
              = .error (start + 1 + j') :=
            ih (start + 1) j' bad hj' hblank hparse hfirst'
          have h0 := hfirst 0 (Nat.succ_pos _)
          simp only [List.get?, Option.all_some, Bool.or_eq_true] at h0
          unfold walReplayLinesAux
          by_cases hb : isBlank s = true
          · rw [if_pos hb, harec]
            congr 1
            omega
          · rw [if_neg hb]
            rcases h0 with h0 | h0
            · exact absurd h0 hb
            · obtain ⟨r, hr⟩ := Option.isSome_iff_exists.mp h0
              rw [hr, harec]
              show Except.error (start + 1 + j') = _
              congr 1
              omega

/-- C4 amended: WAL replay stops at the first malformed non-blank line,
reporting an error with no records, and `DbState::replay_wal` then applies
nothing at all — the state contains none of the WAL's records: the
decipherable prefix is discarded (the database starts empty), not preserved. -/
theorem wal_replay_stops_and_discards (parse : String → Option WalRecord)
    (lines : List String) (j : ℕ) (bad : String) (c : CatalogT ℚ)
    (hj : lines.get? j = some bad) (hblank : isBlank bad = false)
    (hparse : parse bad = none)
    (hfirst : ∀ i < j, ((lines.get? i).all
      (fun s => isBlank s || (parse s).isSome)) = true) :
    walReplayLines parse lines = .error j
    ∧ dbReplayLines parse lines c = c := by
  have h := walReplayLinesAux_error parse lines 0 j bad hj hblank hparse hfirst
  rw [Nat.zero_add] at h
  have h' : walReplayLines parse lines = .error j := h
  exact ⟨h', by simp [dbReplayLines, h']⟩

/-- Witness for the amended C4 statement on the concrete two-line file. -/
theorem wal_replay_stops_and_discards_witness :
    (isBlank "bad" = false)
    ∧ walReplayLines parseDemo ["good", "bad"] = .error 1
    ∧ dbReplayLines parseDemo ["good", "bad"] [] = [] :=
  ⟨by decide,
    (wal_replay_stops_and_discards parseDemo ["good", "bad"] 1 "bad" []
      (by decide) (by decide) (by decide) (by decide)).1,
    (wal_replay_stops_and_discards parseDemo ["good", "bad"] 1 "bad" []
      (by decide) (by decide) (by decide) (by decide)).2⟩

/-- The per-value filter match, characterised: only strings, numbers and
booleans can match. -/
theorem valMatches_iff (v : Json) (e : String) :
    valMatches v e = true ↔
      ((∃ s, v = Json.str s ∧ s = e)
        ∨ (∃ n, v = Json.num n ∧ n = e)
        ∨ (∃ b, v = Json.bool b ∧ (if b then "true" else "false") = e)) := by
  cases v <;> simp [valMatches]

/-- `payload_matches_filters`, characterised for a non-empty filter set. -/
theorem payloadMatchesFilters_iff (parse : String → Option Json)
    (payload : String) (filters : List (String × String))
    (hne : filters ≠ []) :
    payloadMatchesFilters parse payload filters = true ↔
      ∃ fields, parse payload = some (Json.obj fields)
        ∧ ∀ kv ∈ filters, ∃ v, jsonLookup fields kv.1 = some v
          ∧ ((∃ s, v = Json.str s ∧ s = kv.2)
            ∨ (∃ n, v = Json.num n ∧ n = kv.2)
            ∨ (∃ b, v = Json.bool b
                ∧ (if b then "true" else "false") = kv.2)) := by
  unfold payloadMatchesFilters
  rw [if_neg (by simp [List.isEmpty_iff, hne])]
  cases hp : parse payload with
  | none => simp
  | some v =>
      cases v with
      | obj fields =>
          simp only [List.all_eq_true]
          constructor
          · intro hall
            refine ⟨fields, rfl, fun kv hkv => ?_⟩
            have hone := hall kv hkv
            revert hone
            cases hl : jsonLookup fields kv.1 with
            | none => intro hone; cases hone
            | some w =>
                intro hone
                exact ⟨w, rfl, (valMatches_iff w kv.2).mp hone⟩
          · rintro ⟨fields', hf, hall⟩ kv hkv
            injection hf with hf
            cases hf
            rcases hall kv hkv with ⟨w, hw, hmatch⟩
            rw [hw]
            exact (valMatches_iff w kv.2).mpr hmatch
      | null => simp
      | bool b => simp
      | num n => simp
      | str s => simp
      | arr xs => simp

/-- C8: with a non-empty filter set, a row enters the scored candidate set of
`Collection::search` iff its payload string parses as a JSON object that, for
every (key, expected) filter pair, holds the key at top level with a value
matching expected — a string by literal equality, a number by its canonical
string form, a boolean by `"true"`/`"false"`; null, arrays and nested objects
never match, and the pairs are conjoined. -/
theorem filtered_search_retention (parse : String → Option Json)
    (coll : Collection ℚ) (q : List ℚ) (m : Metric)
    (filters : List (String × String)) (i : ℕ) (payload : String)
    (hne : filters ≠ []) (hi : i < coll.index.len)
    (hv : coll.index.vectors.length = coll.index.len * coll.index.dim)
    (hp : coll.index.payloads.get? i = some payload) :
    ∃ cand, collCandidates ratOps parse coll q m filters = some cand
      ∧ ((∃ s, (i, s) ∈ cand) ↔
          (∃ fields, parse payload = some (Json.obj fields)
            ∧ ∀ kv ∈ filters, ∃ v, jsonLookup fields kv.1 = some v
              ∧ ((∃ s, v = Json.str s ∧ s = kv.2)
                ∨ (∃ n, v = Json.num n ∧ n = kv.2)
                ∨ (∃ b, v = Json.bool b
                    ∧ (if b then "true" else "false") = kv.2)))) := by
  have hnef : filters.isEmpty = false := by simp [List.isEmpty_iff, hne]
  have hrow : ∀ j ∈ List.range coll.index.len,
      collRow ratOps parse coll q m filters j = some (
        match coll.index.payloads.get? j with
        | none => none
        | some p =>
            if payloadMatchesFilters parse p filters
            then some (j, scoreWith ratOps m q
              ((coll.index.vectors.drop (j * coll.index.dim)).take
                coll.index.dim))
            else none) := by
    intro j hj
    rw [List.mem_range] at hj
    have hb : j * coll.index.dim + coll.index.dim
        ≤ coll.index.vectors.length := by
      rw [hv]
      calc j * coll.index.dim + coll.index.dim
          = (j + 1) * coll.index.dim := by ring
        _ ≤ coll.index.len * coll.index.dim := Nat.mul_le_mul_right _ hj
    unfold collRow
    rw [if_neg (by simp [hnef])]
    cases coll.index.payloads.get? j with
    | none => rfl
    | some p =>
        dsimp only
        by_cases hm : payloadMatchesFilters parse p filters = true
        · rw [if_pos hm, if_pos hm]
          simp [rowSlice, hb]
        · rw [if_neg hm, if_neg hm]
  have hcand := option_mapM_map (List.range coll.index.len) hrow
  refine ⟨_, by rw [collCandidates, hcand]; rfl, ?_⟩
  rw [← payloadMatchesFilters_iff parse payload filters hne]
  constructor
  · rintro ⟨s, hs⟩
    rw [List.reduceOption_mem_iff] at hs
    rcases List.mem_map.mp hs with ⟨j, hjr, hgj⟩
    revert hgj
    cases hq : coll.index.payloads.get? j with
    | none => intro hgj; cases hgj
    | some pj =>
        dsimp only
        by_cases hm : payloadMatchesFilters parse pj filters = true
        · rw [if_pos hm]
          intro hgj
          injection hgj with hgj
          have hji : j = i := congrArg Prod.fst hgj
          subst hji
          rw [hq] at hp
          injection hp with hp
          subst hp
          exact hm
        · rw [if_neg hm]
          intro hgj
          cases hgj
  · intro hm
    refine ⟨scoreWith ratOps m q
      ((coll.index.vectors.drop (i * coll.index.dim)).take coll.index.dim),
      ?_⟩
    rw [List.reduceOption_mem_iff]
    refine List.mem_map.mpr ⟨i, List.mem_range.mpr hi, ?_⟩
    rw [hp]
    dsimp only
    rw [if_pos hm]

/-- Witness for C8 on a one-row collection whose payload parses to the object
binding `"k"` to the number `1`, filtered by `k = 1`. -/
theorem filtered_search_retention_witness :
    ((⟨"demo", 1, Metric.L2, ⟨1, [(5 : ℚ)], ["a"], ["objk1"],
        Metric.L2⟩⟩ : Collection ℚ).index.payloads.get? 0 = some "objk1")
    ∧ ∃ cand, collCandidates ratOps parseJsonDemo
        (⟨"demo", 1, Metric.L2, ⟨1, [(5 : ℚ)], ["a"], ["objk1"],
          Metric.L2⟩⟩ : Collection ℚ) [(2 : ℚ)] Metric.IP [("k", "1")]
        = some cand
      ∧ ((∃ s, (0, s) ∈ cand) ↔
          (∃ fields, parseJsonDemo "objk1" = some (Json.obj fields)
            ∧ ∀ kv ∈ [("k", "1")], ∃ v, jsonLookup fields kv.1 = some v
              ∧ ((∃ s, v = Json.str s ∧ s = kv.2)
                ∨ (∃ n, v = Json.num n ∧ n = kv.2)
                ∨ (∃ b, v = Json.bool b
                    ∧ (if b then "true" else "false") = kv.2)))) :=
  ⟨by decide,
    filtered_search_retention parseJsonDemo
      ⟨"demo", 1, Metric.L2, ⟨1, [(5 : ℚ)], ["a"], ["objk1"], Metric.L2⟩⟩
      [(2 : ℚ)] Metric.IP [("k", "1")] 0 "objk1"
      (by decide) (by decide) (by decide) (by decide)⟩

/-- C4 counterexample: on the file `["good", "bad"]` the decipherable prefix
holds one CreateCollection record — applying that prefix alone would yield one
collection — but the replayed state is empty: the prefix is discarded rather
than preserved, contrary to the claim. -/
theorem wal_replay_counterexample :
    walReplayLines parseDemo ["good", "bad"] = .error 1
    ∧ catalogLen (dbReplayLines parseDemo ["good", "bad"] []) = 0
    ∧ catalogLen (replayRecords [.createRec "demo" 3 "l2" 0] []) = 1 :=
  ⟨rfl, by decide, by decide⟩

/-! ### Helper lemmas: the catalog map and WAL replay -/

theorem catalogSet_self (c : CatalogT α) (name : String)
    (coll : Collection α) (h : catalogGet c name = some coll) :
    catalogSet c name coll = c := by
  induction c with
  | nil => simp [catalogGet] at h
  | cons kv rest ih =>
      by_cases hk : (kv.1 == name) = true
      · have hv : kv.2 = coll := by
          simp only [catalogGet, if_pos hk, Option.some.injEq] at h
          exact h
        simp [catalogSet, hk, ← hv]
      · have h' : catalogGet rest name = some coll := by
          simpa only [catalogGet, if_neg hk] using h
        simp [catalogSet, hk, ih h']

theorem catalogGet_catalogSet_self (c : CatalogT α) (name : String)
    (coll coll' : Collection α) (h : catalogGet c name = some coll) :
    catalogGet (catalogSet c name coll') name = some coll' := by
  induction c with
  | nil => simp [catalogGet] at h
  | cons kv rest ih =>
      by_cases hk : (kv.1 == name) = true
      · simp [catalogSet, hk, catalogGet]
      · have h' : catalogGet rest name = some coll := by
          simpa only [catalogGet, if_neg hk] using h
        simp [catalogSet, hk, catalogGet, ih h']

theorem catalogSet_catalogSet (c : CatalogT α) (name : String)
    (a b : Collection α) :
    catalogSet (catalogSet c name a) name b = catalogSet c name b := by
  induction c with
  | nil => rfl
  | cons kv rest ih =>
      by_cases hk : (kv.1 == name) = true
      · simp [catalogSet, hk]
      · simp [catalogSet, hk, ih]

/-- A successful `upsert_points`, evaluated: the batch is appended and the
collection replaced in the catalog. -/
theorem upsertPoints_success (c : CatalogT α) (name : String)
    (points : List (PointWrite α)) (coll : Collection α)
    (hget : catalogGet c name = some coll) (hne : points ≠ [])
    (hdim : ∀ p ∈ points, coll.validateDim p.vector = true)
    (hidim : ∀ p ∈ points, p.vector.length = coll.index.dim) :
    upsertPoints c name points
      = some (catalogSet c name (collAppend coll points), points.length) := by
  have hall : points.all (fun p => coll.validateDim p.vector) = true :=
    List.all_eq_true.mpr hdim
  have hall2 : (points.map (·.vector)).all
      (fun v => decide (v.length = coll.index.dim)) = true := by
    rw [List.all_eq_true]
    intro v hv
    rcases List.mem_map.mp hv with ⟨p, hp, hpv⟩
    subst hpv
    simpa using hidim p hp
  have hlen0 : ¬((points.map (·.vector)).length = 0) := by
    simpa [List.length_eq_zero] using hne
  simp only [upsertPoints, List.isEmpty_iff, hne, if_neg, hget,
    Option.map_some', Option.getD_some, hall, Bool.not_true, if_false,
    Collection.upsertBatch, hlen0, FlatIndex.addBatch, hall2, if_true,
    Option.map_some']
  simp [collAppend, List.length_map]

/-- Inversion of a successful `upsert_points`. -/
theorem upsertPoints_some_inv (c : CatalogT α) (name : String)
    (points : List (PointWrite α)) (r : CatalogT α × ℕ)
    (hne : points ≠ []) (h : upsertPoints c name points = some r) :
    ∃ coll, catalogGet c name = some coll
      ∧ (∀ p ∈ points, coll.validateDim p.vector = true)
      ∧ (∀ p ∈ points, p.vector.length = coll.index.dim)
      ∧ r = (catalogSet c name (collAppend coll points), points.length) := by
  have hemp : points.isEmpty = false := by simp [List.isEmpty_iff, hne]
  unfold upsertPoints at h
  rw [hemp] at h
  cases hget : catalogGet c name with
  | none => rw [hget] at h; simp at h
  | some coll =>
      rw [hget] at h
      dsimp only [Option.map_some', Option.getD_some] at h
      by_cases hall : points.all (fun p => coll.validateDim p.vector) = true
      · rw [hall] at h
        simp only [Bool.not_true, Bool.false_eq_true, if_false] at h
        refine ⟨coll, rfl, List.all_eq_true.mp hall, ?_⟩
        unfold Collection.upsertBatch at h
        have hlen0 : ¬((points.map (·.vector)).length = 0) := by
          simpa [List.length_eq_zero] using hne
        rw [if_neg hlen0] at h
        unfold FlatIndex.addBatch at h
        by_cases hall2 : (points.map (·.vector)).all
            (fun v => decide (v.length = coll.index.dim)) = true
        · have hidim : ∀ p ∈ points, p.vector.length = coll.index.dim := by
            intro p hp
            have := List.all_eq_true.mp hall2 _ (List.mem_map_of_mem _ hp)
            simpa using this
          refine ⟨hidim, ?_⟩
          rw [if_pos hall2] at h
          simp only [Option.map_some', Option.some.injEq] at h
          rw [← h]
          simp [collAppend, List.length_map]
        · rw [if_neg hall2] at h
          simp at h
      · rw [Bool.eq_false_iff.mpr hall] at h
        simp at h

/-- `collAppend` composes batchwise. -/
theorem collAppend_collAppend (coll : Collection α) (p : PointWrite α)
    (ps : List (PointWrite α)) :
    collAppend (collAppend coll [p]) ps = collAppend coll (p :: ps) := by
  simp [collAppend, List.append_assoc]

/-- Replaying the per-point Upsert records of a successful batch reproduces
the batch. -/
theorem replay_upsert_records (name : String) :
    ∀ (points : List (PointWrite ℚ)) (c : CatalogT ℚ) (coll : Collection ℚ),
      catalogGet c name = some coll →
      (∀ p ∈ points, coll.validateDim p.vector = true) →
      (∀ p ∈ points, p.vector.length = coll.index.dim) →
      replayRecords (points.map (fun p =>
        WalRecord.upsertRec name p.id p.vector p.payload_json 0)) c
        = catalogSet c name (collAppend coll points) := by
  intro points
  induction points with
  | nil =>
      intro c coll hget _ _
      have : collAppend coll [] = coll := by
        simp [collAppend]
      rw [this, catalogSet_self c name coll hget]
      rfl
  | cons p ps ih =>
      intro c coll hget hdim hidim
      have hone : upsertPoints c name [⟨p.id, p.vector, p.payload_json⟩]
          = some (catalogSet c name (collAppend coll [p]), 1) := by
        have hp : (⟨p.id, p.vector, p.payload_json⟩ : PointWrite ℚ) = p := rfl
        rw [hp]
        exact upsertPoints_success c name [p] coll hget (by simp)
          (by intro x hx
              rw [List.mem_singleton] at hx
              rw [hx]
              exact hdim p (List.mem_cons_self p ps))
          (by intro x hx
              rw [List.mem_singleton] at hx
              rw [hx]
              exact hidim p (List.mem_cons_self p ps))
      have happ : applyRecord c
          (WalRecord.upsertRec name p.id p.vector p.payload_json 0)
          = catalogSet c name (collAppend coll [p]) := by
        unfold applyRecord
        dsimp only
        rw [hget]
        dsimp only
        rw [hone]
      have hget' : catalogGet (catalogSet c name (collAppend coll [p])) name
          = some (collAppend coll [p]) :=
        catalogGet_catalogSet_self c name coll _ hget
      have hdim' : ∀ pp ∈ ps, (collAppend coll [p]).validateDim pp.vector
          = true := by
        intro pp hpp
        have := hdim pp (by simp [hpp])
        simpa [collAppend, Collection.validateDim] using this
      have hidim' : ∀ pp ∈ ps,
          pp.vector.length = (collAppend coll [p]).index.dim := by
        intro pp hpp
        have := hidim pp (by simp [hpp])
        simpa [collAppend] using this
      calc replayRecords ((p :: ps).map (fun pp =>
            WalRecord.upsertRec name pp.id pp.vector pp.payload_json 0)) c
          = replayRecords (ps.map (fun pp =>
              WalRecord.upsertRec name pp.id pp.vector pp.payload_json 0))
              (applyRecord c
                (WalRecord.upsertRec name p.id p.vector p.payload_json 0)) :=
            rfl
        _ = replayRecords (ps.map (fun pp =>
              WalRecord.upsertRec name pp.id pp.vector pp.payload_json 0))
              (catalogSet c name (collAppend coll [p])) := by rw [happ]
        _ = catalogSet (catalogSet c name (collAppend coll [p])) name
              (collAppend (collAppend coll [p]) ps) :=
            ih _ _ hget' hdim' hidim'
        _ = catalogSet c name (collAppend coll (p :: ps)) := by
            rw [catalogSet_catalogSet, collAppend_collAppend]

/-- Replaying the records appended by one request, onto the state the request
saw, reproduces the state the request produced. -/
theorem replay_applyMutation (mint : ℕ → String) (c : CatalogT ℚ)
    (m : Mutation) :
    replayRecords (applyMutation mint c m).2 c = (applyMutation mint c m).1 := by
  cases m with
  | create req =>
      unfold applyMutation grpcCreate
      by_cases h1 : req.name = ""
      · simp [h1, replayRecords]
      · by_cases h2 : req.dims = 0
        · simp [h1, h2, replayRecords]
        · by_cases h3 : (catalogGet c req.name).isSome = true
          · simp [h1, h2, createCollection, h3, replayRecords]
          · simp [h1, h2, createCollection, h3, replayRecords, applyRecord]
  | upsert req =>
      unfold applyMutation grpcUpsert
      dsimp only
      by_cases h1 : req.collection = ""
      · simp [h1, replayRecords]
      · by_cases h2 : (catalogGet c req.collection).isNone = true
        · simp [h1, h2, replayRecords]
        · by_cases h3 : req.points.isEmpty = true
          · simp [h1, h2, h3, replayRecords]
          · by_cases h4 : req.points.any (fun p => p.vector.isEmpty) = true
            · simp [h1, h2, h3, h4, replayRecords]
            · rw [if_neg h1, if_neg h2, if_neg h3, if_neg h4]
              cases hup : upsertPoints c req.collection
                  (req.points.enum.map (fun ip =>
                    ({ id := if ip.2.id = "" then mint ip.1 else ip.2.id,
                       vector := ip.2.vector,
                       payload_json := ip.2.payload_json } : PointWrite ℚ)))
                  with
              | none => rfl
              | some pr =>
                  have hne : req.points.enum.map (fun ip =>
                      ({ id := if ip.2.id = "" then mint ip.1 else ip.2.id,
                         vector := ip.2.vector,
                         payload_json := ip.2.payload_json } : PointWrite ℚ))
                      ≠ [] := by
                    simp only [ne_eq, List.map_eq_nil_iff, List.enum_eq_nil]
                    intro hnil
                    rw [hnil] at h3
                    exact h3 rfl
                  obtain ⟨coll, hget, hdim, hidim, hr⟩ :=
                    upsertPoints_some_inv _ _ _ _ hne hup
                  dsimp only
                  rw [replay_upsert_records req.collection _ c coll hget hdim
                    hidim, hr]

/-- Replaying all records appended by a request sequence, onto the starting
state, reproduces the final state. -/
theorem replay_applyMutations (mint : ℕ → String) :
    ∀ (muts : List Mutation) (c : CatalogT ℚ),
      replayRecords (applyMutations mint c muts).2 c
        = (applyMutations mint c muts).1 := by
  intro muts
  induction muts with
  | nil => intro c; rfl
  | cons m ms ih =>
      intro c
      show replayRecords ((applyMutation mint c m).2
          ++ (applyMutations mint (applyMutation mint c m).1 ms).2) c
        = (applyMutations mint (applyMutation mint c m).1 ms).1
      rw [show ∀ (r1 r2 : List WalRecord) (st : CatalogT ℚ),
          replayRecords (r1 ++ r2) st = replayRecords r2 (replayRecords r1 st)
          from fun r1 r2 st => List.foldl_append _ _ _ _]
      rw [replay_applyMutation mint c m]
      exact ih _

/-- C3: the catalog produced by any request sequence applied to the empty
state equals the catalog produced by replaying the appended WAL records into a
fresh empty state — in particular both have the same number of collections,
the same total point count, and the same top-1 hit for every query against
every collection. -/
theorem wal_roundtrip (mint : ℕ → String) (muts : List Mutation) :
    replayRecords (applyMutations mint [] muts).2 []
        = (applyMutations mint [] muts).1
    ∧ catalogLen (replayRecords (applyMutations mint [] muts).2 [])
        = catalogLen (applyMutations mint [] muts).1
    ∧ totalPoints (replayRecords (applyMutations mint [] muts).2 [])
        = totalPoints (applyMutations mint [] muts).1
    ∧ ∀ (parse : String → Option Json) (name : String) (q : List ℚ),
        top1 parse (replayRecords (applyMutations mint [] muts).2 []) name q
          = top1 parse (applyMutations mint [] muts).1 name q := by
  have h := replay_applyMutations mint muts []
  exact ⟨h, by rw [h], by rw [h], fun parse name q => by rw [h]⟩

end Vectaraft
